import Mathlib

/-!
Verification development for the inventory-location mapper (`app.py`,
Google-Sheets backend variant).

The Python source is shallowly embedded:

* A worksheet is a `List (List String)` of rows (row 1 is the header row);
  gspread cell addressing is 1-based, translated to 0-based list indices.
* `str.strip()` / pandas `.str.strip()` is modelled by `pyStrip`, which drops
  leading and trailing whitespace characters, exactly as the Python functions
  do on the character sequence.
* `str.startswith` is modelled by `startswith` (character-level equality of a
  leading segment, hence case-sensitive).
* The wall clock (`datetime.now(...).isoformat(...)`) is an explicit `now`
  parameter threaded into `upsert_location_to_sheet`.
* Streamlit session effects (messages, widgets) are not state; the module-level
  resolution block and the form-submit handler are modelled as pure functions
  returning the decision taken (`resolve_query`, `handle_save`).
-/

/-- Python `s.strip()`: remove leading and trailing whitespace characters. -/
def pyStrip (s : String) : String :=
  ⟨((s.data.dropWhile Char.isWhitespace).reverse.dropWhile Char.isWhitespace).reverse⟩

/-- Python `s.startswith(p)`: `p` is a character-for-character leading segment of `s`. -/
def startswith (s p : String) : Bool :=
  p.data.isPrefixOf s.data

/-- First cell of a sheet row (column A); missing cells read as `""`. -/
def cell0 (r : List String) : String :=
  r.headD ""

/-- `row += [""] * (7 - len(row))` from `fetch_location_from_sheet`: pad a row to 7 cells. -/
def pad7 (r : List String) : List String :=
  r ++ List.replicate (7 - r.length) ""

/-- The expected header row of the `locations` tab (`ensure_locations_header`). -/
def desired_header : List String :=
  ["part_code", "row", "rack", "shelf", "bin", "updated_at", "updated_by"]

/-- A worksheet: list of rows, row 1 (index 0) is the header row. -/
abbrev Sheet := List (List String)

/-- `ws.row_values(1)`: the first row of the sheet. -/
def row_values_1 (ws : Sheet) : List String :=
  ws.headD []

/-- `ensure_locations_header`: if the first row differs from the desired header,
`ws.clear()` followed by `ws.append_row(desired)` leaves only the header row. -/
def ensure_locations_header (ws : Sheet) : Sheet :=
  if row_values_1 ws = desired_header then ws else [desired_header]

/-- Dict lookup of `load_locations_index`: the index maps the stripped, non-empty
first-column value of each data row to its 1-based row number, later rows
overwriting earlier ones (Python dict assignment); `idx.get(q)` therefore finds
the **last** row whose stripped first cell equals `q` (and `q ≠ ""`).
`col` is the first-column values of the data rows, `k` the row number of the
first of them. -/
def find_last_row (col : List String) (k : Nat) (q : String) : Option Nat :=
  match col with
  | [] => none
  | c :: rest =>
    match find_last_row rest (k + 1) q with
    | some n => some n
    | none => if pyStrip c = q ∧ q ≠ "" then some k else none

/-- `load_locations_index(...)` followed by `idx.get(q)`: data rows start at
row number 2. -/
def locations_index (ws : Sheet) (q : String) : Option Nat :=
  find_last_row ((ws.drop 1).map cell0) 2 q

/-- The record dict built by `fetch_location_from_sheet`. -/
structure LocationRecord where
  part_code : String
  row : String
  rack : String
  shelf : String
  bin : String
  updated_at : String
  updated_by : String
  deriving Repr, DecidableEq

/-- `fetch_location_from_sheet`: look the part code up in the index; on a miss
return `None`; on a hit read that row, pad it to 7 cells and build the record. -/
def fetch_location_from_sheet (ws : Sheet) (part_code : String) : Option LocationRecord :=
  let ws' := ensure_locations_header ws
  match locations_index ws' part_code with
  | none => none
  | some rownum =>
    let r := pad7 (ws'.getD (rownum - 1) [])
    some { part_code := r.getD 0 "", row := r.getD 1 "", rack := r.getD 2 "",
           shelf := r.getD 3 "", bin := r.getD 4 "", updated_at := r.getD 5 "",
           updated_by := r.getD 6 "" }

/-- The `values` list written by `upsert_location_to_sheet`
(`bin_val or ""` maps `None` to `""`). -/
def upsert_values (part_code row_loc rack shelf : String) (bin_val : Option String)
    (updated_by now : String) : List String :=
  [part_code, row_loc, rack, shelf, bin_val.getD "", now, updated_by]

/-- `upsert_location_to_sheet`: ensure the header, look the part code up in the
index; on a hit overwrite cells A..G of that row (`ws.update`), leaving any
cells beyond column G untouched; on a miss `ws.append_row(values)`.  `now` is
the wall-clock reading taken inside the function. -/
def upsert_location_to_sheet (ws : Sheet) (part_code row_loc rack shelf : String)
    (bin_val : Option String) (updated_by now : String) : Sheet :=
  let ws' := ensure_locations_header ws
  let values := upsert_values part_code row_loc rack shelf bin_val updated_by now
  match locations_index ws' part_code with
  | some rownum => ws'.set (rownum - 1) (values ++ (ws'.getD (rownum - 1) []).drop 7)
  | none => ws' ++ [values]

/-- The "Download all saved mappings" block: `ws.get_all_values()`; when at most
the header is present nothing is offered; otherwise the CSV holds exactly
`values[1:]` (the data rows, in sheet order). -/
def export_rows (ws : Sheet) : List (List String) :=
  let ws' := ensure_locations_header ws
  if ws'.length ≤ 1 then [] else ws'.drop 1

/-- The part codes held by the locations store: stripped, non-empty first-column
values of the data rows (the domain of `load_locations_index`). -/
def stored_codes (ws : Sheet) : List String :=
  ((ws.drop 1).map (fun r => pyStrip (cell0 r))).filter (fun c => c ≠ "")

/-- pandas `drop_duplicates()` (keep the first occurrence), written with an
accumulator of already-seen values. -/
def dedup_go (seen : List String) : List String → List String
  | [] => []
  | c :: rest => if c ∈ seen then dedup_go seen rest else c :: dedup_go (c :: seen) rest

/-- `Series.drop_duplicates()`: keep the first occurrence of each value. -/
def dedup_keep_first (l : List String) : List String :=
  dedup_go [] l

/-- `load_part_codes`: `dropna` (the `Option`s), `.str.strip()`, drop empties,
`drop_duplicates()` keeping first occurrences. -/
def load_part_codes (input : List (Option String)) : List String :=
  dedup_keep_first (((input.filterMap id).map pyStrip).filter (fun c => c ≠ ""))

/-- `exact_match_in_series`: `(codes == q).any()` — element-wise string equality. -/
def exact_match_in_series (codes : List String) (q : String) : Bool :=
  codes.any (fun c => c == q)

/-- `prefix_suggestions`: empty result on an empty query, else the first `limit`
codes of the series that start with the query, in series order (no sorting). -/
def prefix_suggestions (codes : List String) (pfx : String) (limit : Nat) : List String :=
  if pfx = "" then []
  else (codes.filter (fun c => startswith c pfx)).take limit

/-- Outcome of the module-level query-resolution block. -/
inductive Resolution
  | idle
  | exactMatch (code : String)
  | suggest (options : List String)
  | offerNew (code : String)
  | noSelection
  deriving Repr, DecidableEq

/-- The module-level resolution block (`if query: ...`): trim the query; an
exact CSV match selects the trimmed query itself; else non-empty prefix
suggestions are shown for the user to pick from; else the "Use this as a NEW
part code" button (`confirm_new`) selects the trimmed query when it is
non-empty. -/
def resolve_query (codes : List String) (query : String) (confirm_new : Bool) : Resolution :=
  if query = "" then .idle
  else
    let q := pyStrip query
    if q ≠ "" ∧ exact_match_in_series codes q then .exactMatch q
    else
      let sugg := prefix_suggestions codes q 50
      if sugg ≠ [] then .suggest sugg
      else if confirm_new ∧ q ≠ "" then .offerNew q
      else .noSelection

/-- The error messages collected by the form-submit handler, in source order. -/
def validation_errors (row_loc rack shelf : String) : List String :=
  (if pyStrip row_loc = "" then ["Row is required."] else []) ++
  (if pyStrip rack = "" then ["Rack is required."] else []) ++
  (if pyStrip shelf = "" then ["Shelf is required."] else [])

/-- The form-submit handler (`if submitted:`): collect validation errors; when
any exist show them all and leave the sheet untouched; otherwise call
`upsert_location_to_sheet` with stripped fields, a blank bin becoming `None`. -/
def handle_save (ws : Sheet) (selected_part_code row_loc rack shelf bin_val updated_by now :
    String) : List String × Sheet :=
  let errs := validation_errors row_loc rack shelf
  if errs = [] then
    ([], upsert_location_to_sheet ws (pyStrip selected_part_code) (pyStrip row_loc)
      (pyStrip rack) (pyStrip shelf)
      (if pyStrip bin_val = "" then none else some (pyStrip bin_val)) updated_by now)
  else (errs, ws)

/-! ### General list facts -/

lemma set_of_getElem?_eq {α : Type} : ∀ (l : List α) (i : Nat) (a : α),
    l[i]? = some a → l.set i a = l := by
  intro l
  induction l with
  | nil => intro i a h; simp at h
  | cons x t ih =>
    intro i a h
    cases i with
    | zero => simp at h; simp [h]
    | succ j => simp at h; simp [ih j a h]

lemma drop_one_set {α : Type} (l : List α) (j : Nat) (a : α) :
    (l.set (j + 1) a).drop 1 = (l.drop 1).set j a := by
  cases l <;> simp

/-! ### Facts about the locations index (`find_last_row`) -/

lemma find_last_row_bounds : ∀ (col : List String) (k n : Nat) (q : String),
    find_last_row col k q = some n → k ≤ n ∧ n - k < col.length := by
  intro col
  induction col with
  | nil => intro k n q h; simp [find_last_row] at h
  | cons c rest ih =>
    intro k n q h
    rw [find_last_row] at h
    rcases hr : find_last_row rest (k + 1) q with _ | m
    · rw [hr] at h
      by_cases hc : pyStrip c = q ∧ q ≠ ""
      · rw [if_pos hc] at h
        cases h
        simp only [List.length_cons]
        omega
      · rw [if_neg hc] at h; cases h
    · rw [hr] at h
      cases h
      have := ih (k + 1) n q hr
      simp only [List.length_cons]
      omega

lemma find_last_row_sound : ∀ (col : List String) (k n : Nat) (q : String),
    find_last_row col k q = some n →
    ∃ c, col[n - k]? = some c ∧ pyStrip c = q ∧ q ≠ "" := by
  intro col
  induction col with
  | nil => intro k n q h; simp [find_last_row] at h
  | cons c rest ih =>
    intro k n q h
    rw [find_last_row] at h
    rcases hr : find_last_row rest (k + 1) q with _ | m
    · rw [hr] at h
      by_cases hc : pyStrip c = q ∧ q ≠ ""
      · rw [if_pos hc] at h
        cases h
        exact ⟨c, by simp, hc⟩
      · rw [if_neg hc] at h; cases h
    · rw [hr] at h
      cases h
      obtain ⟨c', hget, hc'⟩ := ih (k + 1) n q hr
      have hk := find_last_row_bounds rest (k + 1) n q hr
      refine ⟨c', ?_, hc'⟩
      have : n - k = (n - (k + 1)) + 1 := by omega
      rw [this, List.getElem?_cons_succ]
      exact hget

lemma find_last_row_eq_none : ∀ (col : List String) (k : Nat) (q : String),
    find_last_row col k q = none ↔ ∀ c ∈ col, ¬(pyStrip c = q ∧ q ≠ "") := by
  intro col
  induction col with
  | nil => intro k q; simp [find_last_row]
  | cons c rest ih =>
    intro k q
    rw [find_last_row]
    constructor
    · intro h
      rcases hr : find_last_row rest (k + 1) q with _ | m
      · rw [hr] at h
        intro d hd
        rcases List.mem_cons.mp hd with rfl | hd'
        · intro hc
          rw [if_pos hc] at h
          cases h
        · exact ((ih (k + 1) q).mp hr) d hd'
      · rw [hr] at h; cases h
    · intro h
      have hrest : find_last_row rest (k + 1) q = none :=
        (ih (k + 1) q).mpr fun d hd => h d (List.mem_cons_of_mem _ hd)
      rw [hrest, if_neg (h c (List.mem_cons_self _ _))]

lemma find_last_row_append : ∀ (col : List String) (k : Nat) (q c : String),
    find_last_row (col ++ [c]) k q =
      if pyStrip c = q ∧ q ≠ "" then some (k + col.length) else find_last_row col k q := by
  intro col
  induction col with
  | nil =>
    intro k q c
    simp [find_last_row]
  | cons d rest ih =>
    intro k q c
    rw [List.cons_append, find_last_row, ih (k + 1) q c]
    by_cases hc : pyStrip c = q ∧ q ≠ ""
    · rw [if_pos hc, if_pos hc]
      simp only [List.length_cons]
      congr 1
      omega
    · rw [if_neg hc, if_neg hc, find_last_row]

lemma find_last_row_set_match : ∀ (col : List String) (k n : Nat) (q c' : String),
    find_last_row col k q = some n → pyStrip c' = q →
    find_last_row (col.set (n - k) c') k q = some n := by
  intro col
  induction col with
  | nil => intro k n q c' h; simp [find_last_row] at h
  | cons c rest ih =>
    intro k n q c' h hc'
    rw [find_last_row] at h
    rcases hr : find_last_row rest (k + 1) q with _ | m
    · rw [hr] at h
      by_cases hc : pyStrip c = q ∧ q ≠ ""
      · rw [if_pos hc] at h
        cases h
        have : (k : Nat) - k = 0 := by omega
        rw [this]
        simp only [List.set]
        rw [find_last_row, hr, if_pos ⟨hc', hc.2⟩]
      · rw [if_neg hc] at h; cases h
    · rw [hr] at h
      cases h
      have hk := find_last_row_bounds rest (k + 1) n q hr
      have harith : n - k = (n - (k + 1)) + 1 := by omega
      rw [harith]
      simp only [List.set]
      rw [find_last_row, ih (k + 1) n q c' hr hc']

/-! ### Sheet-level structure lemmas -/

lemma header_shape {ws : Sheet} (hh : row_values_1 ws = desired_header) :
    ∃ rest, ws = desired_header :: rest := by
  cases ws with
  | nil => exact absurd hh (by decide)
  | cons h t => exact ⟨t, by rw [show h = desired_header from hh]⟩

lemma ensure_cons (rest : List (List String)) :
    ensure_locations_header (desired_header :: rest) = desired_header :: rest := by
  simp [ensure_locations_header, row_values_1]

lemma locations_index_cons (rest : List (List String)) (q : String) :
    locations_index (desired_header :: rest) q = find_last_row (rest.map cell0) 2 q := rfl

lemma upsert_cons_found {rest : List (List String)} {p : String} {n : Nat}
    (hn : find_last_row (rest.map cell0) 2 p = some n)
    (r k s : String) (b : Option String) (ub now : String) :
    upsert_location_to_sheet (desired_header :: rest) p r k s b ub now =
      desired_header ::
        rest.set (n - 2) (upsert_values p r k s b ub now ++ (rest.getD (n - 2) []).drop 7) := by
  have hb := find_last_row_bounds _ _ _ _ hn
  have h1 : n - 1 = (n - 2) + 1 := by omega
  simp [upsert_location_to_sheet, ensure_cons, locations_index_cons, hn, h1]

lemma upsert_cons_notfound {rest : List (List String)} {p : String}
    (hn : find_last_row (rest.map cell0) 2 p = none)
    (r k s : String) (b : Option String) (ub now : String) :
    upsert_location_to_sheet (desired_header :: rest) p r k s b ub now =
      desired_header :: (rest ++ [upsert_values p r k s b ub now]) := by
  simp [upsert_location_to_sheet, ensure_cons, locations_index_cons, hn]

lemma fetch_cons_none {rest : List (List String)} {q : String}
    (hn : find_last_row (rest.map cell0) 2 q = none) :
    fetch_location_from_sheet (desired_header :: rest) q = none := by
  simp [fetch_location_from_sheet, ensure_cons, locations_index_cons, hn]

lemma fetch_cons_found {rest : List (List String)} {q : String} {n : Nat}
    (hn : find_last_row (rest.map cell0) 2 q = some n) :
    fetch_location_from_sheet (desired_header :: rest) q =
      some { part_code := (pad7 (rest.getD (n - 2) [])).getD 0 "",
             row := (pad7 (rest.getD (n - 2) [])).getD 1 "",
             rack := (pad7 (rest.getD (n - 2) [])).getD 2 "",
             shelf := (pad7 (rest.getD (n - 2) [])).getD 3 "",
             bin := (pad7 (rest.getD (n - 2) [])).getD 4 "",
             updated_at := (pad7 (rest.getD (n - 2) [])).getD 5 "",
             updated_by := (pad7 (rest.getD (n - 2) [])).getD 6 "" } := by
  have hb := find_last_row_bounds _ _ _ _ hn
  have h1 : n - 1 = (n - 2) + 1 := by omega
  simp [fetch_location_from_sheet, ensure_cons, locations_index_cons, hn, h1]

lemma pad7_upsert_values_append (p r k s : String) (b : Option String) (ub now : String)
    (X : List String) :
    pad7 (upsert_values p r k s b ub now ++ X) = upsert_values p r k s b ub now ++ X := by
  have h0 : 7 - (upsert_values p r k s b ub now ++ X).length = 0 := by
    simp [upsert_values]
  rw [pad7, h0]
  simp

lemma cell0_upsert_values_append (p r k s : String) (b : Option String) (ub now : String)
    (X : List String) :
    cell0 (upsert_values p r k s b ub now ++ X) = p := rfl

/-- Round trip at the sheet level: after an upsert of a stripped, non-empty part
code, fetching that code returns exactly the written record. -/
lemma fetch_after_upsert (rest : List (List String)) (p r k s : String) (b : Option String)
    (ub now : String) (hp : pyStrip p = p) (hq : p ≠ "") :
    fetch_location_from_sheet
        (upsert_location_to_sheet (desired_header :: rest) p r k s b ub now) p =
      some ⟨p, r, k, s, b.getD "", now, ub⟩ := by
  rcases hn : find_last_row (rest.map cell0) 2 p with _ | n
  · rw [upsert_cons_notfound hn r k s b ub now]
    have hcol : (rest ++ [upsert_values p r k s b ub now]).map cell0
        = rest.map cell0 ++ [p] := by
      rw [List.map_append]
      rfl
    have hidx : find_last_row ((rest ++ [upsert_values p r k s b ub now]).map cell0) 2 p
        = some (2 + rest.length) := by
      rw [hcol, find_last_row_append, if_pos ⟨hp, hq⟩, List.length_map]
    rw [fetch_cons_found hidx]
    have harith : 2 + rest.length - 2 = rest.length := by omega
    have hget : (rest ++ [upsert_values p r k s b ub now]).getD (2 + rest.length - 2) []
        = upsert_values p r k s b ub now := by
      rw [harith, List.getD_eq_getElem?_getD, List.getElem?_concat_length]
      rfl
    rw [hget]
    have hpad := pad7_upsert_values_append p r k s b ub now []
    simp only [List.append_nil] at hpad
    rw [show upsert_values p r k s b ub now = upsert_values p r k s b ub now ++ [] from
      (List.append_nil _).symm, pad7_upsert_values_append]
    simp [upsert_values]
  · rw [upsert_cons_found hn r k s b ub now]
    have hb := find_last_row_bounds _ _ _ _ hn
    have hlen : n - 2 < rest.length := by
      have := hb.2
      simpa [List.length_map] using this
    have hcol : (rest.set (n - 2)
          (upsert_values p r k s b ub now ++ (rest.getD (n - 2) []).drop 7)).map cell0
        = (rest.map cell0).set (n - 2) p := by
      rw [List.map_set, cell0_upsert_values_append]
    have hidx : find_last_row ((rest.set (n - 2)
          (upsert_values p r k s b ub now ++ (rest.getD (n - 2) []).drop 7)).map cell0) 2 p
        = some n := by
      rw [hcol]
      exact find_last_row_set_match _ _ _ _ _ hn hp
    rw [fetch_cons_found hidx]
    have hget : (rest.set (n - 2)
          (upsert_values p r k s b ub now ++ (rest.getD (n - 2) []).drop 7)).getD (n - 2) []
        = upsert_values p r k s b ub now ++ (rest.getD (n - 2) []).drop 7 := by
      rw [List.getD_eq_getElem?_getD, List.getElem?_set_self hlen]
      rfl
    rw [hget, pad7_upsert_values_append]
    simp [upsert_values]

/-! ### Facts about `stored_codes` and headers across `upsert` -/

lemma upsert_header_preserved (rest : List (List String)) (p r k s : String)
    (b : Option String) (ub now : String) :
    row_values_1 (upsert_location_to_sheet (desired_header :: rest) p r k s b ub now)
      = desired_header := by
  rcases hn : find_last_row (rest.map cell0) 2 p with _ | n
  · rw [upsert_cons_notfound hn]; rfl
  · rw [upsert_cons_found hn]; rfl

lemma upsert_cons_length_found {rest : List (List String)} {p : String} {n : Nat}
    (hn : find_last_row (rest.map cell0) 2 p = some n)
    (r k s : String) (b : Option String) (ub now : String) :
    (upsert_location_to_sheet (desired_header :: rest) p r k s b ub now).length
      = (desired_header :: rest).length := by
  rw [upsert_cons_found hn]
  simp

lemma index_some_after_upsert (rest : List (List String)) (p r k s : String)
    (b : Option String) (ub now : String) (hp : pyStrip p = p) (hq : p ≠ "") :
    ∃ m, locations_index (upsert_location_to_sheet (desired_header :: rest) p r k s b ub now) p
      = some m := by
  rcases hn : find_last_row (rest.map cell0) 2 p with _ | n
  · rw [upsert_cons_notfound hn, locations_index_cons]
    refine ⟨2 + rest.length, ?_⟩
    have hcol : (rest ++ [upsert_values p r k s b ub now]).map cell0
        = rest.map cell0 ++ [p] := by
      rw [List.map_append]; rfl
    rw [hcol, find_last_row_append, if_pos ⟨hp, hq⟩, List.length_map]
  · refine ⟨n, ?_⟩
    rw [upsert_cons_found hn, locations_index_cons, List.map_set, cell0_upsert_values_append]
    exact find_last_row_set_match _ _ _ _ _ hn hp

lemma stored_upsert_found {rest : List (List String)} {p : String} {n : Nat}
    (hn : find_last_row (rest.map cell0) 2 p = some n) (hp : pyStrip p = p)
    (r k s : String) (b : Option String) (ub now : String) :
    stored_codes (upsert_location_to_sheet (desired_header :: rest) p r k s b ub now)
      = stored_codes (desired_header :: rest) := by
  rw [upsert_cons_found hn]
  obtain ⟨c, hget, hcp, hqne⟩ := find_last_row_sound _ _ _ _ hn
  obtain ⟨rw0, hrw0, hcell⟩ : ∃ rw0, rest[n - 2]? = some rw0 ∧ cell0 rw0 = c := by
    rw [List.getElem?_map] at hget
    cases hr : rest[n - 2]? with
    | none => rw [hr] at hget; exact absurd hget (by simp)
    | some rw0 =>
      rw [hr] at hget
      refine ⟨rw0, rfl, ?_⟩
      simpa using hget
  have hkey : (rest.map (fun r => pyStrip (cell0 r)))[n - 2]? = some p := by
    rw [List.getElem?_map, hrw0]
    simp [hcell, hcp]
  show ((rest.set (n - 2) _).map (fun r => pyStrip (cell0 r))).filter (fun c => c ≠ "")
      = (rest.map (fun r => pyStrip (cell0 r))).filter (fun c => c ≠ "")
  rw [List.map_set, cell0_upsert_values_append, hp, set_of_getElem?_eq _ _ _ hkey]

lemma stored_upsert_notfound {rest : List (List String)} {p : String}
    (hn : find_last_row (rest.map cell0) 2 p = none) (hp : pyStrip p = p) (hq : p ≠ "")
    (r k s : String) (b : Option String) (ub now : String) :
    p ∉ stored_codes (desired_header :: rest) ∧
    stored_codes (upsert_location_to_sheet (desired_header :: rest) p r k s b ub now)
      = stored_codes (desired_header :: rest) ++ [p] := by
  constructor
  · intro hmem
    obtain ⟨hmm, hne⟩ := List.mem_filter.mp hmem
    obtain ⟨rw0, hrw0, hk⟩ := List.mem_map.mp hmm
    exact ((find_last_row_eq_none _ _ _).mp hn) (cell0 rw0)
      (List.mem_map_of_mem _ hrw0) ⟨hk, hq⟩
  · rw [upsert_cons_notfound hn]
    show ((rest ++ [upsert_values p r k s b ub now]).map
            (fun r => pyStrip (cell0 r))).filter (fun c => c ≠ "")
        = (rest.map (fun r => pyStrip (cell0 r))).filter (fun c => c ≠ "") ++ [p]
    rw [List.map_append, List.filter_append]
    congr 1
    show List.filter (fun c => c ≠ "") [pyStrip (cell0 (upsert_values p r k s b ub now))] = [p]
    rw [show cell0 (upsert_values p r k s b ub now) = p from rfl]
    simp [hp, hq]

lemma stored_upsert_superset {rest : List (List String)} {p : String} (hp : pyStrip p = p)
    (r k s : String) (b : Option String) (ub now : String) :
    ∀ c ∈ stored_codes (desired_header :: rest),
      c ∈ stored_codes (upsert_location_to_sheet (desired_header :: rest) p r k s b ub now) := by
  intro c hc
  rcases hn : find_last_row (rest.map cell0) 2 p with _ | n
  · rw [upsert_cons_notfound hn]
    have : stored_codes (desired_header :: (rest ++ [upsert_values p r k s b ub now]))
        = stored_codes (desired_header :: rest)
          ++ ([pyStrip (cell0 (upsert_values p r k s b ub now))].filter (fun c => c ≠ "")) := by
      show ((rest ++ [upsert_values p r k s b ub now]).map
              (fun r => pyStrip (cell0 r))).filter (fun c => c ≠ "") = _
      rw [List.map_append, List.filter_append]
      rfl
    rw [this]
    exact List.mem_append_left _ hc
  · rw [stored_upsert_found hn hp r k s b ub now]
    exact hc

/-! ### Facts about the registry: dedup, exact match, suggestions -/

lemma mem_dedup_go : ∀ (l seen : List String) (c : String),
    c ∈ dedup_go seen l ↔ c ∈ l ∧ c ∉ seen := by
  intro l
  induction l with
  | nil => intro seen c; simp [dedup_go]
  | cons a rest ih =>
    intro seen c
    by_cases ha : a ∈ seen
    · rw [dedup_go, if_pos ha, ih]
      constructor
      · rintro ⟨h1, h2⟩
        exact ⟨List.mem_cons_of_mem _ h1, h2⟩
      · rintro ⟨h1, h2⟩
        rcases List.mem_cons.mp h1 with rfl | h1'
        · exact absurd ha h2
        · exact ⟨h1', h2⟩
    · rw [dedup_go, if_neg ha]
      constructor
      · intro h
        rcases List.mem_cons.mp h with rfl | h'
        · exact ⟨List.mem_cons_self _ _, ha⟩
        · obtain ⟨h1, h2⟩ := (ih (a :: seen) c).mp h'
          exact ⟨List.mem_cons_of_mem _ h1, fun hc => h2 (List.mem_cons_of_mem _ hc)⟩
      · rintro ⟨h1, h2⟩
        rcases List.mem_cons.mp h1 with rfl | h1'
        · exact List.mem_cons_self _ _
        · by_cases hca : c = a
          · subst hca
            exact List.mem_cons_self _ _
          · refine List.mem_cons_of_mem _ ((ih (a :: seen) c).mpr ⟨h1', fun hc => ?_⟩)
            rcases List.mem_cons.mp hc with h | h
            · exact hca h
            · exact h2 h

lemma nodup_dedup_go : ∀ (l seen : List String), (dedup_go seen l).Nodup := by
  intro l
  induction l with
  | nil => intro seen; simp [dedup_go]
  | cons a rest ih =>
    intro seen
    by_cases ha : a ∈ seen
    · rw [dedup_go, if_pos ha]
      exact ih seen
    · rw [dedup_go, if_neg ha, List.nodup_cons]
      exact ⟨fun hc => ((mem_dedup_go _ _ _).mp hc).2 (List.mem_cons_self _ _), ih _⟩

lemma sublist_dedup_go : ∀ (l seen : List String), (dedup_go seen l).Sublist l := by
  intro l
  induction l with
  | nil => intro seen; simp [dedup_go]
  | cons a rest ih =>
    intro seen
    by_cases ha : a ∈ seen
    · rw [dedup_go, if_pos ha]
      exact (ih seen).cons a
    · rw [dedup_go, if_neg ha]
      exact (ih (a :: seen)).cons₂ a

lemma indexOf_dedup_go : ∀ (l seen : List String) (c : String), c ∈ dedup_go seen l →
    List.indexOf c (dedup_go seen l) ≤ List.indexOf c l := by
  intro l
  induction l with
  | nil => intro seen c hc; simp [dedup_go] at hc
  | cons a rest ih =>
    intro seen c hc
    by_cases ha : a ∈ seen
    · rw [dedup_go, if_pos ha] at hc ⊢
      have hcr := (mem_dedup_go _ _ _).mp hc
      have hca : c ≠ a := fun e => hcr.2 (e ▸ ha)
      calc List.indexOf c (dedup_go seen rest) ≤ List.indexOf c rest := ih seen c hc
        _ ≤ (List.indexOf c rest).succ := Nat.le_succ _
        _ = List.indexOf c (a :: rest) := (List.indexOf_cons_ne _ (Ne.symm hca)).symm
    · rw [dedup_go, if_neg ha] at hc ⊢
      by_cases hca : c = a
      · subst hca
        simp [List.indexOf_cons_self]
      · rw [List.indexOf_cons_ne _ (Ne.symm hca), List.indexOf_cons_ne _ (Ne.symm hca)]
        have hmem : c ∈ dedup_go (a :: seen) rest := by
          rcases List.mem_cons.mp hc with h | h
          · exact absurd h hca
          · exact h
        exact Nat.succ_le_succ (ih _ c hmem)

lemma exact_match_iff (codes : List String) (q : String) :
    exact_match_in_series codes q = true ↔ q ∈ codes := by
  rw [exact_match_in_series, List.any_eq_true]
  constructor
  · rintro ⟨x, hx, e⟩
    exact (beq_iff_eq.mp e) ▸ hx
  · intro h
    exact ⟨q, h, beq_iff_eq.mpr rfl⟩

lemma mem_prefix_suggestions {codes : List String} {pfx : String} {n : Nat} {c : String} :
    c ∈ prefix_suggestions codes pfx n → c ∈ codes ∧ startswith c pfx = true := by
  intro hc
  rw [prefix_suggestions] at hc
  by_cases hp : pfx = ""
  · rw [if_pos hp] at hc
    simp at hc
  · rw [if_neg hp] at hc
    have hm := List.mem_of_mem_take hc
    exact ⟨(List.mem_filter.mp hm).1, (List.mem_filter.mp hm).2⟩

lemma resolve_query_exact {codes : List String} {query : String} {confirm : Bool} {c : String}
    (h : resolve_query codes query confirm = .exactMatch c) :
    c = pyStrip query ∧ exact_match_in_series codes (pyStrip query) = true := by
  rw [resolve_query] at h
  by_cases h0 : query = ""
  · rw [if_pos h0] at h
    cases h
  · rw [if_neg h0] at h
    simp only at h
    by_cases h1 : pyStrip query ≠ "" ∧ exact_match_in_series codes (pyStrip query) = true
    · rw [if_pos h1] at h
      cases h
      exact ⟨rfl, h1.2⟩
    · rw [if_neg h1] at h
      by_cases h2 : prefix_suggestions codes (pyStrip query) 50 ≠ []
      · rw [if_pos h2] at h
        cases h
      · rw [if_neg h2] at h
        by_cases h3 : confirm = true ∧ pyStrip query ≠ ""
        · rw [if_pos h3] at h
          cases h
        · rw [if_neg h3] at h
          cases h

lemma resolve_query_suggest {codes : List String} {query : String} {confirm : Bool}
    {opts : List String} (h : resolve_query codes query confirm = .suggest opts) :
    opts = prefix_suggestions codes (pyStrip query) 50 := by
  rw [resolve_query] at h
  by_cases h0 : query = ""
  · rw [if_pos h0] at h
    cases h
  · rw [if_neg h0] at h
    simp only at h
    by_cases h1 : pyStrip query ≠ "" ∧ exact_match_in_series codes (pyStrip query) = true
    · rw [if_pos h1] at h
      cases h
    · rw [if_neg h1] at h
      by_cases h2 : prefix_suggestions codes (pyStrip query) 50 ≠ []
      · rw [if_pos h2] at h
        cases h
        rfl
      · rw [if_neg h2] at h
        by_cases h3 : confirm = true ∧ pyStrip query ≠ ""
        · rw [if_pos h3] at h
          cases h
        · rw [if_neg h3] at h
          cases h

/-! ### Claim theorems -/

/-- C1: for every registered-code list and every query whose stripped value `q`
is non-empty, if `q` exactly equals a registered code then the resolution block
selects `q` itself (the exact-match path), returning `exactMatch q` and never
the suggestion list — even when `q` is also a proper prefix of other registered
codes, since the statement quantifies over all code lists. -/
theorem claim_C1 (codes : List String) (query : String) (confirm : Bool)
    (hq : pyStrip query ≠ "") (hm : exact_match_in_series codes (pyStrip query) = true) :
    resolve_query codes query confirm = .exactMatch (pyStrip query) := by
  have h0 : query ≠ "" := by
    intro e
    subst e
    exact hq (by decide)
  rw [resolve_query, if_neg h0]
  simp only
  rw [if_pos ⟨hq, hm⟩]

/-- Witness for C1: codes `{"AB","AB1","AB2"}` with query `"AB"` resolve to the
exact match `"AB"`, not to the suggestion list `["AB1","AB2"]`. -/
theorem claim_C1_witness :
    resolve_query ["AB", "AB1", "AB2"] "AB" false = .exactMatch "AB" := by
  have h := claim_C1 ["AB", "AB1", "AB2"] "AB" false (by decide) (by decide)
  rw [show pyStrip "AB" = "AB" from by decide] at h
  exact h

/-- C2: when any of row/rack/shelf is blank after stripping, the submit handler
leaves the sheet unchanged and reports an error naming every blank required
field (not only the first); the upsert runs only when all three are non-blank. -/
theorem claim_C2 (ws : Sheet) (p r k s b ub now : String) :
    ((pyStrip r = "" ∨ pyStrip k = "" ∨ pyStrip s = "") →
      (handle_save ws p r k s b ub now).2 = ws ∧
      (handle_save ws p r k s b ub now).1 ≠ [] ∧
      (pyStrip r = "" → "Row is required." ∈ (handle_save ws p r k s b ub now).1) ∧
      (pyStrip k = "" → "Rack is required." ∈ (handle_save ws p r k s b ub now).1) ∧
      (pyStrip s = "" → "Shelf is required." ∈ (handle_save ws p r k s b ub now).1)) ∧
    ((pyStrip r ≠ "" ∧ pyStrip k ≠ "" ∧ pyStrip s ≠ "") →
      (handle_save ws p r k s b ub now).1 = [] ∧
      (handle_save ws p r k s b ub now).2 =
        upsert_location_to_sheet ws (pyStrip p) (pyStrip r) (pyStrip k) (pyStrip s)
          (if pyStrip b = "" then none else some (pyStrip b)) ub now) := by
  by_cases h1 : pyStrip r = "" <;> by_cases h2 : pyStrip k = "" <;>
    by_cases h3 : pyStrip s = "" <;>
    simp [handle_save, validation_errors, h1, h2, h3]

/-- Witness for C2: saving with blank row and rack and shelf `"X"` leaves the
sheet unchanged and reports both the row and the rack as missing. -/
theorem claim_C2_witness :
    (handle_save [desired_header] "P1" "" "" "X" "" "u" "T1").2 = [desired_header] ∧
    "Row is required." ∈ (handle_save [desired_header] "P1" "" "" "X" "" "u" "T1").1 ∧
    "Rack is required." ∈ (handle_save [desired_header] "P1" "" "" "X" "" "u" "T1").1 := by
  have h := (claim_C2 [desired_header] "P1" "" "" "X" "" "u" "T1").1 (by left; decide)
  exact ⟨h.1, h.2.2.1 (by decide), h.2.2.2.1 (by decide)⟩

/-- C3: starting from a sheet with the expected header whose stored part codes
are pairwise distinct, an upsert of a stripped, non-empty code preserves that
invariant; a second upsert of the same code rewrites the row in place (the
sheet's length does not change), and a subsequent fetch returns only the
latest field values. -/
theorem claim_C3 (ws : Sheet) (p r1 k1 s1 : String) (b1 : Option String) (ub1 t1 : String)
    (r2 k2 s2 : String) (b2 : Option String) (ub2 t2 : String)
    (hh : row_values_1 ws = desired_header) (hp : pyStrip p = p) (hq : p ≠ "")
    (hinv : (stored_codes ws).Nodup) :
    (stored_codes (upsert_location_to_sheet ws p r1 k1 s1 b1 ub1 t1)).Nodup ∧
    (upsert_location_to_sheet (upsert_location_to_sheet ws p r1 k1 s1 b1 ub1 t1)
        p r2 k2 s2 b2 ub2 t2).length
      = (upsert_location_to_sheet ws p r1 k1 s1 b1 ub1 t1).length ∧
    fetch_location_from_sheet
        (upsert_location_to_sheet (upsert_location_to_sheet ws p r1 k1 s1 b1 ub1 t1)
          p r2 k2 s2 b2 ub2 t2) p
      = some ⟨p, r2, k2, s2, b2.getD "", t2, ub2⟩ := by
  obtain ⟨rest, rfl⟩ := header_shape hh
  have hnodup :
      (stored_codes (upsert_location_to_sheet (desired_header :: rest)
        p r1 k1 s1 b1 ub1 t1)).Nodup := by
    rcases hn : find_last_row (rest.map cell0) 2 p with _ | n
    · obtain ⟨hnot, heq⟩ := stored_upsert_notfound hn hp hq r1 k1 s1 b1 ub1 t1
      rw [heq, List.nodup_append]
      refine ⟨hinv, List.nodup_singleton _, ?_⟩
      intro a ha hmem
      rw [List.mem_singleton] at hmem
      subst hmem
      exact hnot ha
    · rw [stored_upsert_found hn hp r1 k1 s1 b1 ub1 t1]
      exact hinv
  obtain ⟨rest1, hws1⟩ := header_shape (upsert_header_preserved rest p r1 k1 s1 b1 ub1 t1)
  refine ⟨hnodup, ?_, ?_⟩
  · obtain ⟨m, hm⟩ := index_some_after_upsert rest p r1 k1 s1 b1 ub1 t1 hp hq
    rw [hws1] at hm ⊢
    rw [locations_index_cons] at hm
    exact upsert_cons_length_found hm r2 k2 s2 b2 ub2 t2
  · rw [hws1]
    exact fetch_after_upsert rest1 p r2 k2 s2 b2 ub2 t2 hp hq

/-- Witness for C3: two upserts of `"P1"` on a fresh sheet; the fetch returns
only the second write's values. -/
theorem claim_C3_witness :
    fetch_location_from_sheet
        (upsert_location_to_sheet
          (upsert_location_to_sheet [desired_header] "P1" "R1" "K1" "S1" (some "B1") "u1" "T1")
          "P1" "R2" "K2" "S2" none "u2" "T2") "P1"
      = some ⟨"P1", "R2", "K2", "S2", "", "T2", "u2"⟩ := by
  have h := claim_C3 [desired_header] "P1" "R1" "K1" "S1" (some "B1") "u1" "T1"
      "R2" "K2" "S2" none "u2" "T2" (by decide) (by decide) (by decide) (by decide)
  exact h.2.2

/-- C4: for a stripped, non-empty part code and a sheet with the expected
header, an upsert followed by a fetch of the same code returns exactly the
saved row/rack/shelf, the saved bin (a blank bin having been normalized to
`none` by the handler and stored as the empty cell), the saved `updated_by`,
and `updated_at = now`; the stored `updated_at` is non-empty and exceeds any
previously stored `updated_at` for that code whenever the clock reading `now`
does (the clock is external to the embedding). -/
theorem claim_C4 (ws : Sheet) (p r k s : String) (b : Option String) (ub now : String)
    (hh : row_values_1 ws = desired_header) (hp : pyStrip p = p) (hq : p ≠ "")
    (hnow : now ≠ "") :
    fetch_location_from_sheet (upsert_location_to_sheet ws p r k s b ub now) p
      = some ⟨p, r, k, s, b.getD "", now, ub⟩ ∧
    (∀ rec, fetch_location_from_sheet (upsert_location_to_sheet ws p r k s b ub now) p
        = some rec → rec.updated_at ≠ "") ∧
    (∀ old, fetch_location_from_sheet ws p = some old → old.updated_at < now →
      ∀ rec, fetch_location_from_sheet (upsert_location_to_sheet ws p r k s b ub now) p
          = some rec → old.updated_at < rec.updated_at) := by
  obtain ⟨rest, rfl⟩ := header_shape hh
  have hrt := fetch_after_upsert rest p r k s b ub now hp hq
  refine ⟨hrt, ?_, ?_⟩
  · intro rec hrec
    rw [hrt] at hrec
    cases hrec
    exact hnow
  · intro old hold hlt rec hrec
    rw [hrt] at hrec
    cases hrec
    exact hlt

/-- Witness for C4: upserting `"P1"` over an existing record and fetching it
back gives the saved fields, and the old timestamp `"T0"` is below the new
`"T5"`. -/
theorem claim_C4_witness :
    fetch_location_from_sheet
        (upsert_location_to_sheet [desired_header, ["P1", "R0", "K0", "S0", "", "T0", ""]]
          "P1" "R1" "K2" "S3" (some "B4") "alice" "T5") "P1"
      = some ⟨"P1", "R1", "K2", "S3", "B4", "T5", "alice"⟩ ∧
    ("T0" : String) < "T5" := by
  have hT : ("T0" : String) < "T5" := by
    rw [String.lt_iff_toList_lt]
    decide
  have h := claim_C4 [desired_header, ["P1", "R0", "K0", "S0", "", "T0", ""]]
      "P1" "R1" "K2" "S3" (some "B4") "alice" "T5" (by decide) (by decide) (by decide)
      (by decide)
  exact ⟨h.1, h.2.2 ⟨"P1", "R0", "K0", "S0", "", "T0", ""⟩ (by decide) hT
    ⟨"P1", "R1", "K2", "S3", "B4", "T5", "alice"⟩ h.1⟩

/-- Counterexample for C5 as stated: the suggestion list is returned in series
(CSV) order, not sorted; a registry loaded as `["B2","B1"]` yields the unsorted
suggestion list `["B2","B1"]` for query `"B"`. -/
theorem claim_C5_counterexample :
    load_part_codes [some "B2", some "B1"] = ["B2", "B1"] ∧
    prefix_suggestions ["B2", "B1"] "B" 50 = ["B2", "B1"] ∧
    ¬ List.Sorted (fun a b : String => a ≤ b) (prefix_suggestions ["B2", "B1"] "B" 50) := by
  have e : prefix_suggestions ["B2", "B1"] "B" 50 = ["B2", "B1"] := by decide
  refine ⟨by decide, e, ?_⟩
  rw [e]
  intro h
  have hle : ("B2" : String) ≤ "B1" := (List.sorted_cons.mp h).1 "B1" (by simp)
  have hlt : ("B1" : String) < "B2" := by
    rw [String.lt_iff_toList_lt]
    decide
  exact absurd hle (not_le.mpr hlt)

/-- C5 (amended): the suggestion list is empty for an empty query, has at most
`limit` elements, contains only codes starting with the query, and is a
subsequence of the registry in registry order (it is not sorted). -/
theorem claim_C5 (codes : List String) (pfx : String) (n : Nat) :
    (pfx = "" → prefix_suggestions codes pfx n = []) ∧
    (prefix_suggestions codes pfx n).length ≤ n ∧
    (∀ c ∈ prefix_suggestions codes pfx n, startswith c pfx = true) ∧
    (prefix_suggestions codes pfx n).Sublist codes := by
  refine ⟨fun h => by simp [prefix_suggestions, h], ?_,
    fun c hc => (mem_prefix_suggestions hc).2, ?_⟩
  · rw [prefix_suggestions]
    by_cases hp : pfx = ""
    · simp [hp]
    · rw [if_neg hp]
      exact List.length_take_le _ _
  · rw [prefix_suggestions]
    by_cases hp : pfx = ""
    · simp [hp]
    · rw [if_neg hp]
      exact (List.take_sublist _ _).trans (List.filter_sublist _)

/-- Witness for C5 (amended): the spec's own examples — empty query gives `[]`,
and query `"A"` with limit 1 over `{"A1","A2"}` gives exactly `["A1"]`. -/
theorem claim_C5_witness :
    prefix_suggestions ["A1", "A2"] "" 7 = [] ∧
    (prefix_suggestions ["A1", "A2"] "A" 1).length ≤ 1 ∧
    startswith "A1" "A" = true ∧
    prefix_suggestions ["A1", "A2"] "A" 1 = ["A1"] := by
  refine ⟨(claim_C5 ["A1", "A2"] "" 7).1 rfl, (claim_C5 ["A1", "A2"] "A" 1).2.1, ?_, by decide⟩
  exact (claim_C5 ["A1", "A2"] "A" 1).2.2.1 "A1" (by decide)

/-- C6: the CSV bulk load strips each input code, drops blanks and missing
values, and removes duplicates keeping first occurrences: the result has no
duplicates and no empty string, holds exactly the non-empty stripped inputs,
is a subsequence of the stripped input column, and each element sits no later
than its first occurrence there. -/
theorem claim_C6 (input : List (Option String)) :
    (load_part_codes input).Nodup ∧
    "" ∉ load_part_codes input ∧
    (∀ c, c ∈ load_part_codes input ↔
      (c ≠ "" ∧ ∃ x ∈ input.filterMap id, pyStrip x = c)) ∧
    (load_part_codes input).Sublist
      (((input.filterMap id).map pyStrip).filter (fun c => c ≠ "")) ∧
    (∀ c ∈ load_part_codes input,
      List.indexOf c (load_part_codes input)
        ≤ List.indexOf c (((input.filterMap id).map pyStrip).filter (fun c => c ≠ ""))) := by
  have hmem : ∀ c, c ∈ load_part_codes input ↔
      c ∈ ((input.filterMap id).map pyStrip).filter (fun c => c ≠ "") := by
    intro c
    show c ∈ dedup_go [] _ ↔ _
    rw [mem_dedup_go]
    simp
  refine ⟨nodup_dedup_go _ _, ?_, ?_, sublist_dedup_go _ _,
    fun c hc => indexOf_dedup_go _ _ _ hc⟩
  · intro h
    have hmm := (hmem "").mp h
    simp [List.mem_filter] at hmm
  · intro c
    rw [hmem c, List.mem_filter]
    constructor
    · rintro ⟨h1, h2⟩
      refine ⟨by simpa using h2, ?_⟩
      obtain ⟨x, hx, he⟩ := List.mem_map.mp h1
      exact ⟨x, hx, he⟩
    · rintro ⟨h1, x, hx, he⟩
      exact ⟨List.mem_map.mpr ⟨x, hx, he⟩, by simpa using h1⟩

/-- Witness for C6: a column with a duplicate (after stripping), a missing
value and a blank loads as exactly `["C1","C2"]`, and never contains `""`. -/
theorem claim_C6_witness :
    load_part_codes [some " C1 ", some "C1", none, some "", some "C2"] = ["C1", "C2"] ∧
    "" ∉ load_part_codes [some " C1 ", some "C1", none, some "", some "C2"] := by
  exact ⟨by decide, (claim_C6 [some " C1 ", some "C1", none, some "", some "C2"]).2.1⟩

/-- Counterexample for C7 as stated: on a sheet whose header row differs from
the expected one, the header check (`ensure_locations_header`) clears the
whole sheet, deleting the existing record for `"P1"`. -/
theorem claim_C7_counterexample :
    "P1" ∈ stored_codes [["part_code", "row"], ["P1", "R1", "K1", "S1", "", "T1", ""]] ∧
    stored_codes (ensure_locations_header
      [["part_code", "row"], ["P1", "R1", "K1", "S1", "", "T1", ""]]) = [] := by
  decide

/-- C7 (amended): on every sheet whose header row already equals the expected
header — which holds for every state the system itself writes — the header
check is the identity, and an upsert of a stripped part code keeps every
previously stored part code present (its row possibly updated in place);
`fetch_location_from_sheet` and the export only read the store.  When the
header row differs, `ensure_locations_header` clears the sheet (see the
counterexample). -/
theorem claim_C7 (ws : Sheet) (p r k s : String) (b : Option String) (ub now : String)
    (hh : row_values_1 ws = desired_header) (hp : pyStrip p = p) :
    ensure_locations_header ws = ws ∧
    (∀ c ∈ stored_codes ws,
      c ∈ stored_codes (upsert_location_to_sheet ws p r k s b ub now)) := by
  obtain ⟨rest, rfl⟩ := header_shape hh
  exact ⟨ensure_cons rest, stored_upsert_superset hp r k s b ub now⟩

/-- Witness for C7 (amended): upserting `"P2"` keeps the existing `"P1"` record
present. -/
theorem claim_C7_witness :
    "P1" ∈ stored_codes (upsert_location_to_sheet
      [desired_header, ["P1", "R", "K", "S", "", "T", ""]] "P2" "R2" "K2" "S2" none "" "T2") := by
  exact (claim_C7 [desired_header, ["P1", "R", "K", "S", "", "T", ""]]
    "P2" "R2" "K2" "S2" none "" "T2" (by decide) (by decide)).2 "P1" (by decide)

/-- Counterexample for C8 as stated: the "Use this as a NEW part code" path
resolves `"ZZ"` although it is absent from the registry `["AB"]`, and saving
then stores `"ZZ"` in the locations sheet while the CSV registry is never
extended. -/
theorem claim_C8_counterexample :
    resolve_query ["AB"] "ZZ" true = .offerNew "ZZ" ∧
    "ZZ" ∈ stored_codes (handle_save [desired_header] "ZZ" "R1" "K1" "S1" "" "u" "T1").2 ∧
    "ZZ" ∉ ["AB"] := by
  decide

/-- C8 (amended): a code selected through the exact-match path or the
suggestion path is always a member of the registry; only the explicit
new-part-code path can select (and subsequently store) a code absent from the
registry. -/
theorem claim_C8 (codes : List String) (query : String) (confirm : Bool) (c : String) :
    (resolve_query codes query confirm = .exactMatch c → c ∈ codes) ∧
    (∀ opts, resolve_query codes query confirm = .suggest opts → ∀ d ∈ opts, d ∈ codes) := by
  constructor
  · intro h
    obtain ⟨rfl, hm⟩ := resolve_query_exact h
    exact (exact_match_iff _ _).mp hm
  · intro opts h d hd
    rw [resolve_query_suggest h] at hd
    exact (mem_prefix_suggestions hd).1

/-- Witness for C8 (amended): both resolution paths land in the registry. -/
theorem claim_C8_witness :
    "AB1" ∈ ["AB1", "AB2"] ∧ "AB2" ∈ ["AB1", "AB2"] := by
  refine ⟨(claim_C8 ["AB1", "AB2"] "AB1" false "AB1").1 (by decide), ?_⟩
  exact (claim_C8 ["AB1", "AB2"] "AB" false "x").2 ["AB1", "AB2"] (by decide) "AB2" (by decide)

/-- Counterexample for C9 as stated: with `"AB"` registered but no saved
location, the export holds no entry at all — registered codes without a
location record are absent from the export, which is not a full outer join. -/
theorem claim_C9_counterexample :
    "AB" ∈ load_part_codes [some "AB"] ∧ export_rows [desired_header] = [] := by
  decide

/-- C9 (amended): on a sheet with the expected header the export is exactly the
stored data rows, in sheet order; a registered part code appears only if a
location row was saved for it. -/
theorem claim_C9 (ws : Sheet) (hh : row_values_1 ws = desired_header) :
    export_rows ws = ws.drop 1 := by
  obtain ⟨rest, rfl⟩ := header_shape hh
  simp only [export_rows, ensure_cons]
  by_cases hl : (desired_header :: rest).length ≤ 1
  · rw [if_pos hl]
    cases rest with
    | nil => rfl
    | cons a t => simp at hl
  · rw [if_neg hl]

/-- Witness for C9 (amended): the export of a sheet with one saved record is
exactly that one data row. -/
theorem claim_C9_witness :
    export_rows [desired_header, ["P1", "R", "K", "S", "", "T", ""]]
      = [["P1", "R", "K", "S", "", "T", ""]] := by
  exact (claim_C9 [desired_header, ["P1", "R", "K", "S", "", "T", ""]] (by decide)).trans
    (by decide)

/-- C10: matching is case-sensitive with no normalization beyond stripping at
the call sites: the exact match succeeds precisely when the query is
character-for-character equal (including letter case) to a registered code,
and every suggested code extends the query character-for-character. -/
theorem claim_C10 (codes : List String) (q pfx : String) (n : Nat) :
    (exact_match_in_series codes q = true ↔ q ∈ codes) ∧
    (∀ c ∈ prefix_suggestions codes pfx n, ∃ t, c.data = pfx.data ++ t) := by
  refine ⟨exact_match_iff codes q, fun c hc => ?_⟩
  have hs := (mem_prefix_suggestions hc).2
  rw [startswith] at hs
  obtain ⟨t, ht⟩ := List.isPrefixOf_iff_prefix.mp hs
  exact ⟨t, ht.symm⟩

/-- Witness for C10: `"AB"` matches itself but `"ab"` does not match `"AB"`,
and the suggested `"AB1"` extends `"AB"` character-for-character. -/
theorem claim_C10_witness :
    exact_match_in_series ["AB", "AB1"] "AB" = true ∧
    exact_match_in_series ["AB", "AB1"] "ab" = false ∧
    (∃ t, "AB1".data = "AB".data ++ t) := by
  refine ⟨(claim_C10 ["AB", "AB1"] "AB" "AB" 50).1.mpr (by decide), by decide, ?_⟩
  exact (claim_C10 ["AB", "AB1"] "AB" "AB" 50).2 "AB1" (by decide)
